import Mathlib

/-!
# Verification of the nfstest `Host` controller (src/nfstest/host.py)

This file gives a shallow embedding in Lean of the parts of `Host` that the
specification's claims are about:

* the descendant resolver `Host.get_pids` (host.py lines 332-363),
* the command executor `Host.run_cmd` (lines 372-441),
* the background-process registry maintained by `run_cmd`/`wait_cmd`
  (lines 417-422 and 461-502),
* the escalating sudo kill loop of `Host.wait_cmd` (lines 473-494),
* the observation-session stop/start sequences `Host.trace_stop` and
  `Host.trace_start` (lines 731-805),
* the cleanup coordinator `Host.cleanup` (lines 267-299).

Python mutable attributes become explicit state records, OS interaction
(process exit codes, captured output, the live process table, pids of newly
spawned processes) becomes explicit environment/oracle parameters, and Python
exceptions become `Except` values.  Loops that the source bounds only by
external events are given explicit fuel chosen large enough to coincide with
the source whenever the source loop terminates.
-/

namespace NFSTest

/-! ## Descendant resolver: `Host.get_pids` (host.py lines 332-363)

The Python code first parses `ps -ef` output into the dict `pids` mapping
every process id to its parent process id, then expands breadth first from
the requested pid.  We model the already-parsed dict as an association list
in insertion order with unique keys, and embed the expansion loop. -/

/-- The parsed process-table snapshot: the Python dict `pids` built in
`Host.get_pids` from `ps -ef` output, mapping each pid (dict key) to its
parent pid.  Entries are in dict insertion order; keys are unique. -/
abbrev PidMap := List (Nat × Nat)

/-- Keys of the table are pairwise distinct (a Python dict). -/
abbrev keysNodup (m : PidMap) : Prop := (m.map (fun e => e.1)).Nodup

/-- Dictionary lookup `pids.get(c)`: the parent recorded for pid `c`. -/
def lookupPid (m : PidMap) (c : Nat) : Option Nat :=
  (m.find? (fun e => e.1 = c)).map (fun e => e.2)

/-- The inner scan `for p_id in pids.keys(): if cpid == pids[p_id]` of
`Host.get_pids` (lines 359-362): all pids whose recorded parent is `p`,
in table order. -/
def childrenOf (m : PidMap) (p : Nat) : List Nat :=
  (m.filter (fun e => e.2 = p)).map (fun e => e.1)

/-- One level of the breadth-first expansion: the new `clist` computed from
the current one (lines 356-362). -/
def nextLevel (m : PidMap) (clist : List Nat) : List Nat :=
  clist.flatMap (childrenOf m)

/-- The `while len(clist)` loop of `Host.get_pids` (lines 353-362) with
explicit fuel: each iteration appends the current level to `plist` and
builds the next level.  `get_pids` supplies fuel `m.length + 1`, which
exceeds the number of iterations the source loop can make whenever it
terminates, so the model agrees with the source on those inputs. -/
def bfsLoop (m : PidMap) : Nat → List Nat → List Nat → List Nat
  | 0, plist, _ => plist
  | Nat.succ fuel, plist, clist =>
    if clist.isEmpty then plist
    else bfsLoop m fuel (plist ++ clist) (nextLevel m clist)

/-- `Host.get_pids` after the `ps -ef` output has been parsed into `m`:
start from `[pid]` when `pid` is a key of the table (lines 350-352,
`if pids.get(pid) is not None`), otherwise from the empty list, then
expand breadth first. -/
def get_pids (m : PidMap) (pid : Nat) : List Nat :=
  bfsLoop m (m.length + 1) []
    (if (lookupPid m pid).isSome then [pid] else [])

/-- `d` is `r` itself or one of its transitive descendants under the
pid-to-parent table `m` (the property `get_pids` is claimed to compute). -/
inductive IsDesc (m : PidMap) (r : Nat) : Nat → Prop
  | refl : IsDesc m r r
  | child {p c : Nat} : IsDesc m r p → lookupPid m c = some p → IsDesc m r c

/-- `DescN m r d k`: `d` is reachable from `r` by exactly `k` parent-to-child
steps of the table `m`. -/
def DescN (m : PidMap) (r : Nat) : Nat → Nat → Prop
  | d, 0 => r = d
  | d, Nat.succ k => ∃ p, lookupPid m d = some p ∧ DescN m r p k

/-- `ChainTo m r l d`: starting at `r`, the pids in `l` are successive
children (each a child of the one before) and the walk ends at `d`. -/
def ChainTo (m : PidMap) (r : Nat) : List Nat → Nat → Prop
  | [], d => r = d
  | c :: t, d => lookupPid m c = some r ∧ ChainTo m c t d

theorem mem_keys_of_lookupPid {m : PidMap} {c p : Nat}
    (h : lookupPid m c = some p) : c ∈ m.map (fun e => e.1) := by
  unfold lookupPid at h
  cases hf : m.find? (fun e => e.1 = c) with
  | none => rw [hf] at h; simp at h
  | some e =>
    have he : e ∈ m := List.mem_of_find?_eq_some hf
    have hp : e.1 = c := by
      have := @List.find?_some _ _ _ _ hf
      simpa using this
    exact List.mem_map.mpr ⟨e, he, hp⟩

theorem lookupPid_isSome_iff {m : PidMap} {c : Nat} :
    (lookupPid m c).isSome ↔ c ∈ m.map (fun e => e.1) := by
  constructor
  · intro h
    cases hl : lookupPid m c with
    | none => rw [hl] at h; simp at h
    | some p => exact mem_keys_of_lookupPid hl
  · intro h
    rcases List.mem_map.mp h with ⟨e, he, hc⟩
    unfold lookupPid
    cases hf : m.find? (fun e => e.1 = c) with
    | some e2 => simp
    | none =>
      exfalso
      have := List.find?_eq_none.mp hf e he
      simp [hc] at this

theorem mem_iff_lookupPid {m : PidMap} (hnd : keysNodup m) {c p : Nat} :
    (c, p) ∈ m ↔ lookupPid m c = some p := by
  induction m with
  | nil => simp [lookupPid]
  | cons e t ih =>
    have hnd' : keysNodup t := (List.nodup_cons.mp hnd).2
    have hne : e.1 ∉ t.map (fun x => x.1) := (List.nodup_cons.mp hnd).1
    by_cases hc : e.1 = c
    · have hfind : lookupPid (e :: t) c = some e.2 := by
        unfold lookupPid
        rw [List.find?_cons_of_pos _ (by simp [hc])]
        rfl
      rw [hfind]
      constructor
      · intro hm
        rcases List.mem_cons.mp hm with h1 | h2
        · simp [← h1]
        · exact absurd (hc ▸ List.mem_map.mpr ⟨(c, p), h2, rfl⟩) hne
      · intro hp
        simp only [Option.some_inj] at hp
        have : e = (c, p) := by
          cases e; simp_all
        simp [this]
    · have hfind : lookupPid (e :: t) c = lookupPid t c := by
        unfold lookupPid
        rw [List.find?_cons_of_neg _ (by simp [hc])]
      rw [hfind, ← ih hnd']
      constructor
      · intro hm
        rcases List.mem_cons.mp hm with h1 | h2
        · exact absurd (by simp [← h1]) hc
        · exact h2
      · exact fun h => List.mem_cons_of_mem _ h

theorem mem_childrenOf {m : PidMap} (hnd : keysNodup m) {c p : Nat} :
    c ∈ childrenOf m p ↔ lookupPid m c = some p := by
  unfold childrenOf
  rw [← mem_iff_lookupPid hnd]
  constructor
  · intro h
    rcases List.mem_map.mp h with ⟨e, he, hc⟩
    have hm := List.mem_of_mem_filter he
    have hp : e.2 = p := by
      have := List.of_mem_filter he
      simpa using this
    cases e
    simp_all
  · intro h
    exact List.mem_map.mpr ⟨(c, p), List.mem_filter_of_mem h (by simp), rfl⟩

/-- Iterating `nextLevel` from a frontier: the frontier after `k` loop
iterations. -/
def frontierIter (m : PidMap) : Nat → List Nat → List Nat
  | 0, cl => cl
  | Nat.succ k, cl => frontierIter m k (nextLevel m cl)

theorem frontierIter_nil (m : PidMap) : ∀ k, frontierIter m k [] = [] := by
  intro k
  induction k with
  | zero => rfl
  | succ k ih => simpa [frontierIter, nextLevel] using ih

theorem frontierIter_succ_outside (m : PidMap) :
    ∀ (k : Nat) (cl : List Nat),
      frontierIter m (k + 1) cl = nextLevel m (frontierIter m k cl) := by
  intro k
  induction k with
  | zero => intro cl; rfl
  | succ k ih =>
    intro cl
    calc frontierIter m (k + 2) cl
        = frontierIter m (k + 1) (nextLevel m cl) := rfl
      _ = nextLevel m (frontierIter m k (nextLevel m cl)) := ih _
      _ = nextLevel m (frontierIter m (k + 1) cl) := rfl

theorem mem_bfsLoop {m : PidMap} :
    ∀ (f : Nat) (pl cl : List Nat) (x : Nat),
      x ∈ bfsLoop m f pl cl ↔
        x ∈ pl ∨ ∃ k, k < f ∧ x ∈ frontierIter m k cl := by
  intro f
  induction f with
  | zero =>
    intro pl cl x
    simp [bfsLoop]
  | succ f ih =>
    intro pl cl x
    by_cases hcl : cl.isEmpty
    · have hnil : cl = [] := List.isEmpty_iff.mp hcl
      simp [bfsLoop, hcl, hnil, frontierIter_nil]
    · have hstep : bfsLoop m (f + 1) pl cl
          = bfsLoop m f (pl ++ cl) (nextLevel m cl) := by
        simp [bfsLoop, hcl]
      rw [hstep, ih]
      have hfr : ∀ k, frontierIter m k (nextLevel m cl)
          = frontierIter m (k + 1) cl := fun k => rfl
      constructor
      · rintro (hpl | ⟨k, hk, hx⟩)
        · rcases List.mem_append.mp hpl with h | h
          · exact Or.inl h
          · exact Or.inr ⟨0, by omega, h⟩
        · exact Or.inr ⟨k + 1, by omega, (hfr k) ▸ hx⟩
      · rintro (hpl | ⟨k, hk, hx⟩)
        · exact Or.inl (List.mem_append.mpr (Or.inl hpl))
        · cases k with
          | zero => exact Or.inl (List.mem_append.mpr (Or.inr hx))
          | succ k => exact Or.inr ⟨k, by omega, (hfr k).symm ▸ hx⟩

theorem mem_frontierIter_iff_descN {m : PidMap} (hnd : keysNodup m)
    (r : Nat) : ∀ (k : Nat) (x : Nat),
    x ∈ frontierIter m k [r] ↔ DescN m r x k := by
  intro k
  induction k with
  | zero =>
    intro x
    simp [frontierIter, DescN, eq_comm]
  | succ k ih =>
    intro x
    rw [frontierIter_succ_outside]
    simp only [nextLevel, List.mem_flatMap]
    constructor
    · rintro ⟨p, hp, hx⟩
      exact ⟨p, (mem_childrenOf hnd).mp hx, (ih p).mp hp⟩
    · rintro ⟨p, hx, hp⟩
      exact ⟨p, (ih p).mpr hp, (mem_childrenOf hnd).mpr hx⟩

theorem isDesc_iff_descN {m : PidMap} {r d : Nat} :
    IsDesc m r d ↔ ∃ k, DescN m r d k := by
  constructor
  · intro h
    induction h with
    | refl => exact ⟨0, rfl⟩
    | child hp hc ih =>
      rcases ih with ⟨k, hk⟩
      exact ⟨k + 1, ⟨_, hc, hk⟩⟩
  · rintro ⟨k, hk⟩
    induction k generalizing d with
    | zero => cases hk; exact IsDesc.refl
    | succ k ih =>
      rcases hk with ⟨p, hp, hd⟩
      exact IsDesc.child (ih hd) hp

theorem chainTo_append {m : PidMap} :
    ∀ (a b : List Nat) (r d : Nat),
      ChainTo m r (a ++ b) d ↔ ∃ q, ChainTo m r a q ∧ ChainTo m q b d := by
  intro a
  induction a with
  | nil =>
    intro b r d
    constructor
    · intro h; exact ⟨r, rfl, h⟩
    · rintro ⟨q, hq, hb⟩; cases hq; exact hb
  | cons e t ih =>
    intro b r d
    constructor
    · intro h
      have h2 : lookupPid m e = some r ∧ ChainTo m e (t ++ b) d := h
      rcases h2 with ⟨he, ht⟩
      rcases (ih b e d).mp ht with ⟨q, htq, hb⟩
      exact ⟨q, ⟨he, htq⟩, hb⟩
    · rintro ⟨q, hq, hb⟩
      have h2 : lookupPid m e = some r ∧ ChainTo m e t q := hq
      rcases h2 with ⟨he, ht⟩
      show lookupPid m e = some r ∧ ChainTo m e (t ++ b) d
      exact ⟨he, (ih b e d).mpr ⟨q, ht, hb⟩⟩

theorem descN_iff_chainTo {m : PidMap} {r : Nat} :
    ∀ (k : Nat) (d : Nat),
      DescN m r d k ↔ ∃ l, l.length = k ∧ ChainTo m r l d := by
  intro k
  induction k with
  | zero =>
    intro d
    constructor
    · intro h; exact ⟨[], rfl, h⟩
    · rintro ⟨l, hl, hc⟩
      rw [List.length_eq_zero] at hl
      subst hl
      exact hc
  | succ k ih =>
    intro d
    constructor
    · rintro ⟨p, hp, hd⟩
      rcases (ih p).mp hd with ⟨l, hl, hc⟩
      refine ⟨l ++ [d], by simp [hl], ?_⟩
      rw [chainTo_append]
      exact ⟨p, hc, hp, rfl⟩
    · rintro ⟨l, hl, hc⟩
      rcases List.eq_nil_or_concat l with rfl | ⟨t, c, rfl⟩
      · simp at hl
      · rw [List.concat_eq_append] at hl hc
        rw [chainTo_append] at hc
        rcases hc with ⟨q, ht, hcq, hcd⟩
        cases hcd
        have hlen : t.length = k := by simpa using hl
        exact ⟨q, hcq, (ih q).mpr ⟨t, hlen, ht⟩⟩

theorem chainTo_mem_keys {m : PidMap} :
    ∀ (l : List Nat) (r d x : Nat), ChainTo m r l d → x ∈ l →
      x ∈ m.map (fun e => e.1) := by
  intro l
  induction l with
  | nil => intro r d x _ hx; simp at hx
  | cons c t ih =>
    intro r d x hc hx
    rcases List.mem_cons.mp hx with rfl | hx
    · exact mem_keys_of_lookupPid hc.1
    · exact ih c d x hc.2 hx

theorem not_nodup_split {l : List Nat} (h : ¬ l.Nodup) :
    ∃ l1 x l2 l3, l = l1 ++ x :: l2 ++ x :: l3 := by
  induction l with
  | nil => exact absurd List.nodup_nil h
  | cons a t ih =>
    rw [List.nodup_cons] at h
    push_neg at h
    by_cases ha : a ∈ t
    · rcases List.append_of_mem ha with ⟨s, u, rfl⟩
      exact ⟨[], a, s, u, rfl⟩
    · rcases ih (h ha) with ⟨l1, x, l2, l3, rfl⟩
      exact ⟨a :: l1, x, l2, l3, rfl⟩

/-- Cutting a cycle out of a walk yields a strictly shorter walk with the
same endpoints. -/
theorem chainTo_shorten {m : PidMap} {r d : Nat} {l : List Nat}
    (hc : ChainTo m r l d) (hdup : ¬ (r :: l).Nodup) :
    ∃ l2, l2.length < l.length ∧ ChainTo m r l2 d := by
  rw [List.nodup_cons] at hdup
  push_neg at hdup
  by_cases hr : r ∈ l
  · rcases List.append_of_mem hr with ⟨s, u, rfl⟩
    rw [chainTo_append] at hc
    rcases hc with ⟨q, _, hq, hu⟩
    exact ⟨u, by simp; omega, hu⟩
  · rcases not_nodup_split (hdup hr) with ⟨l1, x, l2, l3, rfl⟩
    have h1 : ChainTo m r (l1 ++ x :: (l2 ++ x :: l3)) d := by
      simpa using hc
    rw [chainTo_append] at h1
    rcases h1 with ⟨q1, hl1, hx1, hrest⟩
    have h2 : ChainTo m x (l2 ++ x :: l3) d := hrest
    rw [chainTo_append] at h2
    rcases h2 with ⟨q2, _, hx2, hl3⟩
    refine ⟨l1 ++ x :: l3, by simp; omega, ?_⟩
    rw [chainTo_append]
    exact ⟨q1, hl1, hx1, hl3⟩

theorem chainTo_nodup {m : PidMap} {r d : Nat} :
    ∀ (n : Nat) (l : List Nat), l.length ≤ n → ChainTo m r l d →
      ∃ l2, l2.length ≤ l.length ∧ (r :: l2).Nodup ∧ ChainTo m r l2 d := by
  intro n
  induction n with
  | zero =>
    intro l hl hc
    have : l = [] := List.eq_nil_of_length_eq_zero (by omega)
    subst this
    exact ⟨[], by simp, by simp, hc⟩
  | succ n ih =>
    intro l hl hc
    by_cases hdup : (r :: l).Nodup
    · exact ⟨l, le_refl _, hdup, hc⟩
    · rcases chainTo_shorten hc hdup with ⟨l2, hlt, hc2⟩
      rcases ih l2 (by omega) hc2 with ⟨l3, hle, hnd, hc3⟩
      exact ⟨l3, by omega, hnd, hc3⟩

theorem nodup_subset_length {l keys : List Nat} (hnd : l.Nodup)
    (hsub : ∀ x ∈ l, x ∈ keys) : l.length ≤ keys.length := by
  calc l.length = l.toFinset.card := (List.toFinset_card_of_nodup hnd).symm
    _ ≤ keys.toFinset.card := by
        apply Finset.card_le_card
        intro x hx
        rw [List.mem_toFinset] at hx ⊢
        exact hsub x hx
    _ ≤ keys.length := keys.toFinset_card_le

/-- Any descendant of a pid that is a key of the table is reached within
`m.length` steps: the minimal walk repeats no pid, and every pid on it is a
key of the table. -/
theorem descN_short {m : PidMap} {r d : Nat} (hr : (lookupPid m r).isSome)
    {k : Nat} (h : DescN m r d k) :
    ∃ j, j < m.length + 1 ∧ DescN m r d j := by
  rcases (descN_iff_chainTo k d).mp h with ⟨l, _, hc⟩
  rcases chainTo_nodup l.length l (le_refl _) hc with ⟨l2, _, hnd, hc2⟩
  have hsub : ∀ x ∈ r :: l2, x ∈ m.map (fun e => e.1) := by
    intro x hx
    rcases List.mem_cons.mp hx with rfl | hx
    · exact lookupPid_isSome_iff.mp hr
    · exact chainTo_mem_keys l2 r d x hc2 hx
  have hlen : (r :: l2).length ≤ (m.map (fun e => e.1)).length :=
    nodup_subset_length hnd hsub
  simp only [List.length_cons, List.length_map] at hlen
  exact ⟨l2.length, by omega, (descN_iff_chainTo _ _).mpr ⟨l2, rfl, hc2⟩⟩

/-- Claim C4 (amended): for a process-table snapshot with unique keys and a
target pid that appears as a key of the table, `get_pids` returns exactly
the target pid together with all of its transitive descendants, by
breadth-first expansion level by level starting from the target pid. -/
theorem get_pids_mem_iff (m : PidMap) (pid x : Nat) (hnd : keysNodup m)
    (hkey : (lookupPid m pid).isSome) :
    x ∈ get_pids m pid ↔ IsDesc m pid x := by
  unfold get_pids
  rw [if_pos hkey, mem_bfsLoop]
  simp only [List.not_mem_nil, false_or]
  constructor
  · rintro ⟨k, _, hx⟩
    exact isDesc_iff_descN.mpr ⟨k, (mem_frontierIter_iff_descN hnd pid k x).mp hx⟩
  · intro h
    rcases isDesc_iff_descN.mp h with ⟨k, hk⟩
    rcases descN_short hkey hk with ⟨j, hj, hdj⟩
    exact ⟨j, hj, (mem_frontierIter_iff_descN hnd pid j x).mpr hdj⟩

/-- Claim C4, counterexample to the claim as stated: for a target pid that
is not a key of the table, `get_pids` does not return the pid together with
its descendants — pid 5 is trivially its own descendant, yet `get_pids`
of the table `{1: 0, 2: 1}` at 5 is empty. -/
theorem get_pids_missing_pid_cex :
    IsDesc [(1, 0), (2, 1)] 5 5 ∧ 5 ∉ get_pids [(1, 0), (2, 1)] 5 :=
  ⟨IsDesc.refl, by decide⟩

/-- Claim C4, witness: on the concrete table `{1: 0, 2: 1, 3: 2}` (a chain
1 → 2 → 3) with target pid 1, the theorem applies and pid 3 — a transitive
descendant — is indeed returned. -/
theorem get_pids_mem_iff_witness :
    IsDesc [(1, 0), (2, 1), (3, 2)] 1 3 ∧ 3 ∈ get_pids [(1, 0), (2, 1), (3, 2)] 1 := by
  have h := get_pids_mem_iff [(1, 0), (2, 1), (3, 2)] 1 3 (by decide) (by decide)
  have hmem : 3 ∈ get_pids [(1, 0), (2, 1), (3, 2)] 1 := by decide
  exact ⟨h.mp hmem, hmem⟩

/-- Claim C9: for a target pid that does not appear as a key in the parsed
process-table mapping, `get_pids` returns the empty list; in particular the
result does not contain the target pid itself. -/
theorem get_pids_absent (m : PidMap) (pid : Nat)
    (h : lookupPid m pid = none) :
    get_pids m pid = [] ∧ pid ∉ get_pids m pid := by
  have hempty : get_pids m pid = [] := by
    unfold get_pids
    rw [h]
    simp [bfsLoop]
  exact ⟨hempty, by rw [hempty]; simp⟩

/-- Claim C9, witness: pid 7 is not a key of the table `{1: 0}`, and
`get_pids` returns the empty list there. -/
theorem get_pids_absent_witness :
    lookupPid [(1, 0)] 7 = none ∧ get_pids [(1, 0)] 7 = [] :=
  ⟨by decide, (get_pids_absent [(1, 0)] 7 (by decide)).1⟩

/-! ## Command executor: `Host.run_cmd` (host.py lines 372-441)

The mutable attributes `run_cmd` reads and writes become `CmdState`; the
behaviour of the operating system for the one spawned process (its pid,
captured output, exit status, and the caller's uid) becomes `ExecEnv`.
A Python `raise Exception(text)` is `.error text`; a blocking call that
completes returns `.ok (some stdout)`; a non-blocking call returns
`.ok none` (the bare `return` of line 422). -/

/-- The controller attributes used by `run_cmd`: result attributes
(`pstdout`, `pstderr`, `perror`, `returncode`), the background-process
registry (`process_list`, `process_dmap`, `process_smap`, with processes
identified by pid), and the fixed endpoint data (`_localhost`, `host`,
`user`, and the configured sudo command path). -/
structure CmdState where
  pstdout : String
  pstderr : String
  perror : String
  returncode : Int
  process_list : List Nat
  process_dmap : List (Nat × String)
  process_smap : List Nat
  localhost : Bool
  host : String
  user : String
  sudoPath : String
deriving Repr, DecidableEq

/-- The OS side of one `run_cmd` invocation: the pid `Popen` assigns, the
output `communicate()` captures (already decoded), the exit status, and
`os.getuid()` for the calling process. -/
structure ExecEnv where
  newpid : Nat
  stdout : String
  stderr : String
  rc : Int
  uid : Nat
deriving Repr, DecidableEq

/-- Lines 398-402 of `run_cmd`: the result attributes are cleared before
the command is built and spawned. -/
def resetResults (st : CmdState) : CmdState :=
  { st with pstdout := "", pstderr := "", perror := "", returncode := 0 }

/-- `cmd.replace` of line 413: escape every embedded double quote with a
backslash for the remote-shell wrapping. -/
def escapeQuotes : List Char → List Char
  | [] => []
  | c :: t => if c = '"' then '\\' :: '"' :: escapeQuotes t else c :: escapeQuotes t

/-- `Host.sudo_cmd` (lines 365-370): prefix the sudo command when the
effective user is not root. -/
def sudo_cmd (st : CmdState) (uid : Nat) (cmd : String) : String :=
  if uid ≠ 0 then st.sudoPath ++ " " ++ cmd else cmd

/-- The command line `run_cmd` actually spawns (lines 403-413): optional
sudo prefix, and for a remote endpoint the ssh wrapping with the login
user and quote escaping.  Its execution outcome is supplied by `ExecEnv`. -/
def fullCommand (st : CmdState) (uid : Nat) (sudoFlag : Bool) (cmd : String) : String :=
  let user := if st.user.length > 0 then st.user ++ "@" else ""
  let cmd := if sudoFlag then sudo_cmd st uid cmd else cmd
  if st.localhost then cmd
  else "ssh -t -t " ++ user ++ st.host ++ " \"" ++
    String.mk (escapeQuotes cmd.toList) ++ "\""

/-- `Host.run_cmd` (lines 372-441).  The spawned command line is
`fullCommand st env.uid sudo cmd` (its text is only logged through the
`dprint` hook of line 415; the oracle `env` supplies its outcome).
Non-blocking calls (lines 417-422) register the process in the registry
and return immediately; blocking calls capture output and classify the
exit status (lines 423-441). -/
def runCmd (st : CmdState) (cmd : String) (sudoFlag : Bool) (dlevel : String)
    (wait : Bool) (env : ExecEnv) : CmdState × Except String (Option String) :=
  let st := resetResults st
  -- lines 403-415: the spawned and dprint-logged command line (its outcome
  -- is delivered by `env`)
  let _ := fullCommand st env.uid sudoFlag cmd
  if ¬wait then
    let st := { st with
      process_list := st.process_list ++ [env.newpid],
      process_dmap := (env.newpid, dlevel) :: st.process_dmap,
      process_smap := if sudoFlag ∧ env.uid ≠ 0 then st.process_smap ++ [env.newpid]
                      else st.process_smap }
    (st, .ok none)
  else
    let st := { st with pstdout := env.stdout, pstderr := env.stderr,
                        returncode := env.rc }
    if st.localhost then
      if env.rc ≠ 0 then ({ st with perror := env.stderr }, .error env.stderr)
      else (st, .ok (some env.stdout))
    else
      if env.rc = 255 then (st, .error env.stderr)
      else if env.rc ≠ 0 then ({ st with perror := env.stdout }, .error env.stdout)
      else (st, .ok (some env.stdout))

/-- Claim C1: blocking `run_cmd` classifies the exit status as the spec
states — local non-zero exit raises with the captured stderr; remote exit
255 raises with the captured stderr; remote other non-zero exit raises
with the captured stdout; zero exit raises nothing and returns the
captured stdout. -/
theorem runCmd_exit_classification (st : CmdState) (cmd : String)
    (sudoFlag : Bool) (dlevel : String) (env : ExecEnv) :
    (st.localhost = true → env.rc ≠ 0 →
       (runCmd st cmd sudoFlag dlevel true env).2 = .error env.stderr) ∧
    (st.localhost = false → env.rc = 255 →
       (runCmd st cmd sudoFlag dlevel true env).2 = .error env.stderr) ∧
    (st.localhost = false → env.rc ≠ 0 → env.rc ≠ 255 →
       (runCmd st cmd sudoFlag dlevel true env).2 = .error env.stdout) ∧
    (env.rc = 0 →
       (runCmd st cmd sudoFlag dlevel true env).2 = .ok (some env.stdout)) := by
  refine ⟨?_, ?_, ?_, ?_⟩
  · intro h1 h2; simp [runCmd, resetResults, h1, h2]
  · intro h1 h2; simp [runCmd, resetResults, h1, h2]
  · intro h1 h2 h3; simp [runCmd, resetResults, h1, h2, h3]
  · intro h1
    cases hl : st.localhost <;> simp [runCmd, resetResults, hl, h1]

/-- Claim C1, witness: a local command exiting 1 with stderr "boom" raises
an error carrying "boom". -/
theorem runCmd_exit_classification_witness :
    (runCmd ⟨"", "", "", 0, [], [], [], true, "", "", "/usr/bin/sudo"⟩
       "false" false "DBG1" true ⟨11, "", "boom", 1, 0⟩).2 = .error "boom" :=
  (runCmd_exit_classification
    ⟨"", "", "", 0, [], [], [], true, "", "", "/usr/bin/sudo"⟩
    "false" false "DBG1" ⟨11, "", "boom", 1, 0⟩).1 rfl (by decide)

/-- Claim C10: every `run_cmd` invocation first clears the result
attributes (it behaves exactly as if run from the cleared state), and
after a non-blocking launch all four result attributes hold the cleared
values: empty stdout, stderr and error text, and return code 0. -/
theorem runCmd_resets (st : CmdState) (cmd : String) (sudoFlag : Bool)
    (dlevel : String) (wait : Bool) (env : ExecEnv) :
    ((runCmd st cmd sudoFlag dlevel false env).1.pstdout = "" ∧
     (runCmd st cmd sudoFlag dlevel false env).1.pstderr = "" ∧
     (runCmd st cmd sudoFlag dlevel false env).1.perror = "" ∧
     (runCmd st cmd sudoFlag dlevel false env).1.returncode = 0) ∧
    runCmd st cmd sudoFlag dlevel wait env =
      runCmd (resetResults st) cmd sudoFlag dlevel wait env := by
  exact ⟨⟨rfl, rfl, rfl, rfl⟩, rfl⟩

/-! ## Process registry: `run_cmd(wait=False)` and `wait_cmd`
(host.py lines 417-422 and 461-502)

The registry-affecting calls on one controller form a trace of operations;
`regStep` is the net registry effect of each call, read off the source:
a non-blocking launch appends the new process (lines 417-421); `wait_cmd`
on one process waits and removes it if present (lines 467-501); `wait_cmd`
with no process snapshots the whole list and removes every entry
(lines 461-462 and 500-501).  `stop_cmd` (lines 504-521) is `wait_cmd`
with `terminate=True`. -/

/-- One registry-affecting call: `runNoWait p s` is
`run_cmd(..., wait=False)` spawning pid `p`, with
`s = (sudo and os.getuid() != 0)`; `waitOne p t` is
`wait_cmd(process, terminate=t)` on the process with pid `p`;
`waitAll t` is `wait_cmd(None, terminate=t)`. -/
inductive RegOp
  | runNoWait (p : Nat) (s : Bool)
  | waitOne (p : Nat) (t : Bool)
  | waitAll (t : Bool)
deriving Repr, DecidableEq

/-- The registry state: `process_list` and the sudo map `process_smap`
(processes identified by pid; `process_dmap` holds only debug levels and
is omitted). -/
structure Registry where
  plist : List Nat
  smap : List Nat
deriving Repr, DecidableEq

/-- Net registry effect of one call, from the source lines quoted above. -/
def regStep (st : Registry) : RegOp → Registry
  | .runNoWait p s =>
    { plist := st.plist ++ [p],
      smap := if s then st.smap ++ [p] else st.smap }
  | .waitOne p t =>
    if p ∈ st.plist then
      { plist := st.plist.erase p,
        smap := if t then st.smap.erase p else st.smap }
    else st
  | .waitAll t =>
    { plist := [],
      smap := if t then st.smap.filter (fun q => ¬ q ∈ st.plist) else st.smap }

/-- A whole call trace, run left to right from a registry state. -/
def runRegistry (st : Registry) (tr : List RegOp) : Registry :=
  tr.foldl regStep st

/-- The pids launched non-blocking in a trace. -/
def launches (tr : List RegOp) : List Nat :=
  tr.filterMap (fun op => match op with
    | RegOp.runNoWait p _ => some p
    | _ => none)

/-- Specification-side characterization for claim C6, read off the claim
text: given whether `p` is initially live (`b`), `liveAfter p b tr` holds
exactly when, after the calls of `tr`, `p` has been launched non-blocking
and has not since been waited on or terminated. -/
def liveAfter (p : Nat) : Bool → List RegOp → Bool
  | b, [] => b
  | b, op :: rest =>
    liveAfter p
      (match op with
       | RegOp.runNoWait q _ => if q = p then true else b
       | RegOp.waitOne q _ => if q = p then false else b
       | RegOp.waitAll _ => false) rest

theorem runRegistry_mem (tr : List RegOp) :
    ∀ (st : Registry) (p : Nat), st.plist.Nodup →
      (launches tr).Nodup → (∀ q ∈ launches tr, q ∉ st.plist) →
      ((p ∈ (runRegistry st tr).plist ↔
          liveAfter p (decide (p ∈ st.plist)) tr = true) ∧
        (runRegistry st tr).plist.Nodup) := by
  induction tr with
  | nil =>
    intro st p hnd _ _
    simpa [runRegistry, liveAfter] using hnd
  | cons op rest ih =>
    intro st p hnd hl hfresh
    have hstep : runRegistry st (op :: rest) = runRegistry (regStep st op) rest := rfl
    rw [hstep]
    match op with
    | RegOp.runNoWait q s =>
      have hcons : launches (RegOp.runNoWait q s :: rest) = q :: launches rest := by
        simp [launches]
      rw [hcons] at hl
      have hq : q ∉ st.plist := hfresh q (by rw [hcons]; exact List.mem_cons_self q _)
      have hlrest : (launches rest).Nodup := (List.nodup_cons.mp hl).2
      have hqrest : q ∉ launches rest := (List.nodup_cons.mp hl).1
      have hplist : (regStep st (RegOp.runNoWait q s)).plist = st.plist ++ [q] := rfl
      have hnd2 : (regStep st (RegOp.runNoWait q s)).plist.Nodup := by
        rw [hplist]
        exact hnd.append (List.nodup_singleton q)
          (fun a ha hb => hq ((List.mem_singleton.mp hb) ▸ ha))
      have hfresh2 : ∀ r ∈ launches rest, r ∉ (regStep st (RegOp.runNoWait q s)).plist := by
        intro r hr
        rw [hplist]
        have hr1 : r ∉ st.plist := hfresh r (by rw [hcons]; exact List.mem_cons_of_mem _ hr)
        have hr2 : r ≠ q := fun hrq => hqrest (hrq ▸ hr)
        simp [List.mem_append, hr1, hr2]
      have hmain := ih (regStep st (RegOp.runNoWait q s)) p hnd2 hlrest hfresh2
      have harg : liveAfter p (decide (p ∈ st.plist)) (RegOp.runNoWait q s :: rest)
          = liveAfter p (decide (p ∈ (regStep st (RegOp.runNoWait q s)).plist)) rest := by
        show liveAfter p (if q = p then true else decide (p ∈ st.plist)) rest = _
        rw [hplist]
        by_cases hqp : q = p
        · subst hqp
          simp [List.mem_append]
        · simp [hqp, List.mem_append, Ne.symm hqp]
      rw [harg]
      exact hmain
    | RegOp.waitOne q t =>
      have hcons : launches (RegOp.waitOne q t :: rest) = launches rest := by
        simp [launches]
      rw [hcons] at hl
      have hfresh1 : ∀ r ∈ launches rest, r ∉ st.plist :=
        fun r hr => hfresh r (by rw [hcons]; exact hr)
      have hlive : liveAfter p (decide (p ∈ st.plist)) (RegOp.waitOne q t :: rest)
          = liveAfter p (if q = p then false else decide (p ∈ st.plist)) rest := rfl
      rw [hlive]
      by_cases hm : q ∈ st.plist
      · have hplist : (regStep st (RegOp.waitOne q t)).plist = st.plist.erase q := by
          simp [regStep, hm]
        have hnd2 : (regStep st (RegOp.waitOne q t)).plist.Nodup := by
          rw [hplist]; exact hnd.erase q
        have hfresh2 : ∀ r ∈ launches rest, r ∉ (regStep st (RegOp.waitOne q t)).plist := by
          intro r hr
          rw [hplist]
          exact fun hc => hfresh1 r hr (List.mem_of_mem_erase hc)
        have hmain := ih (regStep st (RegOp.waitOne q t)) p hnd2 hl hfresh2
        have harg : (if q = p then false else decide (p ∈ st.plist))
            = decide (p ∈ (regStep st (RegOp.waitOne q t)).plist) := by
          rw [hplist]
          by_cases hqp : q = p
          · subst hqp
            simp [hnd.mem_erase_iff]
          · simp [hqp, hnd.mem_erase_iff, Ne.symm hqp]
        rw [harg]
        exact hmain
      · have hplist : regStep st (RegOp.waitOne q t) = st := by
          simp [regStep, hm]
        have hmain := ih st p hnd hl hfresh1
        have harg : (if q = p then false else decide (p ∈ st.plist))
            = decide (p ∈ st.plist) := by
          by_cases hqp : q = p
          · subst hqp
            simp [hm]
          · simp [hqp]
        rw [hplist, harg]
        exact hmain
    | RegOp.waitAll t =>
      have hcons : launches (RegOp.waitAll t :: rest) = launches rest := by
        simp [launches]
      rw [hcons] at hl
      have hplist : (regStep st (RegOp.waitAll t)).plist = [] := rfl
      have hnd2 : (regStep st (RegOp.waitAll t)).plist.Nodup := by
        rw [hplist]; exact List.nodup_nil
      have hfresh2 : ∀ r ∈ launches rest, r ∉ (regStep st (RegOp.waitAll t)).plist := by
        intro r _
        rw [hplist]
        simp
      have hmain := ih (regStep st (RegOp.waitAll t)) p hnd2 hl hfresh2
      have hlive : liveAfter p (decide (p ∈ st.plist)) (RegOp.waitAll t :: rest)
          = liveAfter p false rest := rfl
      have harg : (false : Bool) = decide (p ∈ (regStep st (RegOp.waitAll t)).plist) := by
        rw [hplist]; simp
      rw [hlive, harg]
      exact hmain

/-- Claim C6: starting from the empty registry and any trace of
registry-affecting calls in which every non-blocking launch spawns a fresh
pid, a pid is in `process_list` exactly when it was launched by a
non-blocking `run_cmd` and has not since been removed by a `wait_cmd` or
`stop_cmd` that waited on or terminated it; and `process_list` never holds
a pid twice, so an entry never reappears after removal. -/
theorem registry_invariant (tr : List RegOp) (p : Nat)
    (hfresh : (launches tr).Nodup) :
    (p ∈ (runRegistry ⟨[], []⟩ tr).plist ↔ liveAfter p false tr = true) ∧
    (runRegistry ⟨[], []⟩ tr).plist.Nodup := by
  have h := runRegistry_mem tr ⟨[], []⟩ p (by simp) hfresh (by simp)
  simpa using h

/-- A sample call trace: launch pids 3 (with sudo by a non-root caller)
and 5, then terminate 3. -/
def regTr0 : List RegOp :=
  [RegOp.runNoWait 3 true, RegOp.runNoWait 5 false, RegOp.waitOne 3 true]

/-- Claim C6, witness: after the sample trace, pid 5 (launched, never
waited) is registered and pid 3 (terminated) is not. -/
theorem registry_invariant_witness :
    5 ∈ (runRegistry ⟨[], []⟩ regTr0).plist ∧
    3 ∉ (runRegistry ⟨[], []⟩ regTr0).plist := by
  have h5 := (registry_invariant regTr0 5 (by decide)).1
  have h3 := (registry_invariant regTr0 3 (by decide)).1
  refine ⟨h5.mpr (by decide), fun hc => ?_⟩
  exact absurd (h3.mp hc) (by decide)

/-! ## Escalating sudo kill loop of `wait_cmd` (host.py lines 473-494)

For a process registered in `process_smap` (started with sudo by a
non-root caller), `wait_cmd(terminate=True)` cannot use `terminate()` and
instead runs, for each signal SIGINT, SIGTERM, SIGKILL in order, an inner
polling loop of at most 5 iterations: check `proc.poll()`, fetch the
descendant list via `get_pids`, issue one sudo `kill` per descendant
(failures swallowed, line 489), and sleep 0.1 s.  It escalates to the next
signal only if the tier ended with a nonempty `pidlist`. -/

/-- Oracle for the kill loop: at global poll step `t`, `poll t` is
`proc.poll()` (an exit status, or none while still running) and `pids t`
is the `get_pids` result.  Each inner iteration advances `t` by one,
standing for its 100 ms sleep. -/
structure KillEnv where
  poll : Nat → Option Int
  pids : Nat → List Nat

/-- One signal tier: the `while count < 5 and proc.poll() is None` loop
(lines 478-491); `fuel` is `5 - count` and `pidlist` the current value of
the Python `pidlist` variable.  Returns the final `pidlist`, the advanced
step counter, and the kill commands issued, as (signal, pid) pairs in
order (one sudo `kill -SIG pid` per pair, pids in reversed `pidlist`
order, line 484). -/
def killTier (env : KillEnv) (sig : String) :
    Nat → Nat → List Nat → List Nat × Nat × List (String × Nat)
  | 0, t, pidlist => (pidlist, t, [])
  | Nat.succ fuel, t, pidlist =>
    match env.poll t with
    | some _ => (pidlist, t, [])
    | none =>
      let pl := env.pids t
      if pl.isEmpty then (pl, t, [])
      else
        let evs := pl.reverse.map (fun pid => (sig, pid))
        let r := killTier env sig fuel (t + 1) pl
        (r.1, r.2.1, evs ++ r.2.2)

/-- The `for killsig in ("SIGINT", "SIGTERM", "SIGKILL")` escalation
(lines 477-493): run a tier with `count = 0` and `pidlist = []`, then
escalate only if the tier left a nonempty `pidlist` (line 492). -/
def killEscalate (env : KillEnv) : List String → Nat → Nat × List (String × Nat)
  | [], t => (t, [])
  | sig :: rest, t =>
    let r := killTier env sig 5 t []
    if r.1.isEmpty then (r.2.1, r.2.2)
    else
      let r2 := killEscalate env rest r.2.1
      (r2.1, r.2.2 ++ r2.2)

/-- The whole sudo-kill path of `wait_cmd` for one process in
`process_smap`: SIGINT, then SIGTERM, then SIGKILL. -/
def sudoKill (env : KillEnv) (t : Nat) : Nat × List (String × Nat) :=
  killEscalate env ["SIGINT", "SIGTERM", "SIGKILL"] t

theorem killTier_time (env : KillEnv) (sig : String) :
    ∀ (fuel t : Nat) (pidlist : List Nat),
      (killTier env sig fuel t pidlist).2.1 ≤ t + fuel := by
  intro fuel
  induction fuel with
  | zero => intro t pidlist; simp [killTier]
  | succ fuel ih =>
    intro t pidlist
    unfold killTier
    match hp : env.poll t with
    | some c => simp
    | none =>
      simp only
      by_cases he : (env.pids t).isEmpty
      · simp [he]
      · have := ih (t + 1) (env.pids t)
        simp [he]
        omega

theorem killTier_sig (env : KillEnv) (sig : String) :
    ∀ (fuel t : Nat) (pidlist : List Nat),
      ∀ ev ∈ (killTier env sig fuel t pidlist).2.2, ev.1 = sig := by
  intro fuel
  induction fuel with
  | zero => intro t pidlist ev hev; simp [killTier] at hev
  | succ fuel ih =>
    intro t pidlist ev hev
    unfold killTier at hev
    match hp : env.poll t with
    | some c => rw [hp] at hev; simp at hev
    | none =>
      rw [hp] at hev
      simp only at hev
      by_cases he : (env.pids t).isEmpty
      · simp [he] at hev
      · simp only [he, if_false] at hev
        rcases List.mem_append.mp hev with h | h
        · rcases List.mem_map.mp h with ⟨pid, _, rfl⟩
          rfl
        · exact ih (t + 1) (env.pids t) ev h

/-- Claim C5: conjunction of
(1) the loop is bounded by 3 signal tiers of at most 5 polls each (the
    step counter advances by at most 15 unit sleeps, and no signalling
    happens after the three tiers);
(2) the kill commands issued decompose into a SIGINT block, then a SIGTERM
    block, then a SIGKILL block, in that order;
(3) escalation stops as soon as a tier ends with no descendants remaining:
    if the SIGINT tier ends with an empty `pidlist`, its kills are all
    that happen, and likewise after the SIGTERM tier. -/
theorem sudoKill_policy (env : KillEnv) (t : Nat) :
    ((sudoKill env t).1 ≤ t + 15) ∧
    (∃ e1 e2 e3, (sudoKill env t).2 = e1 ++ e2 ++ e3 ∧
      (∀ ev ∈ e1, ev.1 = "SIGINT") ∧ (∀ ev ∈ e2, ev.1 = "SIGTERM") ∧
      (∀ ev ∈ e3, ev.1 = "SIGKILL")) ∧
    ((killTier env "SIGINT" 5 t []).1.isEmpty = true →
      (sudoKill env t).2 = (killTier env "SIGINT" 5 t []).2.2) ∧
    ((killTier env "SIGINT" 5 t []).1.isEmpty = false →
      (killTier env "SIGTERM" 5 (killTier env "SIGINT" 5 t []).2.1 []).1.isEmpty = true →
      (sudoKill env t).2 = (killTier env "SIGINT" 5 t []).2.2 ++
        (killTier env "SIGTERM" 5 (killTier env "SIGINT" 5 t []).2.1 []).2.2) := by
  have h1 := killTier_time env "SIGINT" 5 t []
  set r1 := killTier env "SIGINT" 5 t [] with hr1
  have h2 := killTier_time env "SIGTERM" 5 r1.2.1 []
  set r2 := killTier env "SIGTERM" 5 r1.2.1 [] with hr2
  have h3 := killTier_time env "SIGKILL" 5 r2.2.1 []
  set r3 := killTier env "SIGKILL" 5 r2.2.1 [] with hr3
  have hs1 := killTier_sig env "SIGINT" 5 t []
  have hs2 := killTier_sig env "SIGTERM" 5 r1.2.1 []
  have hs3 := killTier_sig env "SIGKILL" 5 r2.2.1 []
  rw [← hr1] at hs1
  rw [← hr2] at hs2
  rw [← hr3] at hs3
  have hdef : sudoKill env t =
      (if r1.1.isEmpty then (r1.2.1, r1.2.2)
       else if r2.1.isEmpty then (r2.2.1, r1.2.2 ++ r2.2.2)
       else (r3.2.1, r1.2.2 ++ (r2.2.2 ++ r3.2.2))) := by
    simp only [sudoKill, killEscalate, hr1, hr2, hr3]
    by_cases e1 : r1.1.isEmpty <;> by_cases e2 : r2.1.isEmpty <;>
      simp [e1, e2, ← hr1, ← hr2, ← hr3]
  by_cases e1 : r1.1.isEmpty = true
  · rw [hdef, if_pos e1]
    exact ⟨by show r1.2.1 ≤ t + 15; omega,
      ⟨r1.2.2, [], [], by simp, hs1, by simp, by simp⟩,
      fun _ => rfl, fun hc _ => absurd e1 (by rw [hc]; simp)⟩
  · by_cases e2 : r2.1.isEmpty = true
    · rw [hdef, if_neg e1, if_pos e2]
      exact ⟨by show r2.2.1 ≤ t + 15; omega,
        ⟨r1.2.2, r2.2.2, [], by simp, hs1, hs2, by simp⟩,
        fun hc => absurd hc e1, fun _ _ => rfl⟩
    · rw [hdef, if_neg e1, if_neg e2]
      exact ⟨by show r3.2.1 ≤ t + 15; omega,
        ⟨r1.2.2, r2.2.2, r3.2.2, by simp, hs1, hs2, hs3⟩,
        fun hc => absurd hc e1, fun _ hc => absurd hc e2⟩

/-- A sample kill-loop oracle: the process never reports an exit status
and never has descendants listed. -/
def killEnv0 : KillEnv := ⟨fun _ => none, fun _ => []⟩

/-- Claim C5, witness: with no descendants ever listed, the SIGINT tier
ends immediately with an empty `pidlist`, so no kill command is issued and
no time is spent. -/
theorem sudoKill_policy_witness :
    (sudoKill killEnv0 0).2 = [] ∧ (sudoKill killEnv0 0).1 ≤ 15 := by
  have h := sudoKill_policy killEnv0 0
  have he : (killTier killEnv0 "SIGINT" 5 0 []).1.isEmpty = true := rfl
  have h2 := h.2.2.1 he
  constructor
  · rw [h2]; rfl
  · simpa using h.1

/-! ## Observation sessions: `Host.trace_stop` and `Host.trace_start`
(host.py lines 731-805)

The session-related attributes become `SState`; the outcomes of the
commands each stage runs become the oracle `SEnv`.  Each stage returns the
updated state together with the observable events it produced, or `.error`
when the Python stage raises; `trace_stop` places all four stop stages in
one `try` whose `except` swallows the exception (lines 794-805). -/

/-- Observable events of the session paths. -/
inductive SEv
  | stopCapture          -- stage 1 of trace_stop reached (lines 795-799)
  | dbgReset             -- stage 2 reached: nfs_debug_reset (lines 800-801)
  | trcpReset            -- stage 3 reached: trace_points_reset (line 802)
  | statsGet             -- stage 4 reached: nfsstat_get (line 803)
  | removeProc (p : Nat) -- a tracked process terminated, waited on and dropped
  | launch (p : Nat)     -- a process spawned with run_cmd(wait=False)
  | dbgEnable            -- nfs_debug_enable reached (line 755)
  | trcpEnable           -- trace_points_enable reached (line 756)
  | statsInit            -- nfsstat_init reached (line 757)
deriving Repr, DecidableEq

/-- The session-related controller attributes.  `tracepoints` holds the
configured trace point names (the comma-split list of the Python string);
file-name bookkeeping that no claim touches (dbgfile/dbgidx, trcpfile/
trcpidx, nfsstatfile/nfsstatidx, dbgoffset/dbgmode) is not represented. -/
structure SState where
  plist : List Nat               -- process_list (as pids)
  smap : List Nat                -- process_smap (as pids)
  traceproc : Option Nat         -- self.traceproc
  trcpointproc : Option Nat      -- self.trcpointproc
  notrace : Bool
  nfsdebugOn : Bool              -- self._nfsdebug
  tracestate : List (String × Nat) -- self._tracestate
  tracepoints : List String
  tracefile : String
  traceidx : Nat
  tracefiles : List String
  tmpdir : String
  tracename : String
  nfsdebug : String
  rpcdebug : String
  nfsstats : Bool
  nfsstattemp : String
deriving Repr, DecidableEq

/-- Oracle for one session start/stop sequence: which stage bodies raise,
what the OS supplies (pids of the two spawned capture processes, the
tcpdump startup line, the temp-file name), and ambient facts
(`os.getuid() != 0`, existence of the system log). -/
structure SEnv where
  failStop : Bool        -- stop_cmd of the capture process raises
  failDbg : Bool         -- nfs_debug_reset raises
  failTrcp : Bool        -- trace_points_reset raises
  failStats : Bool       -- nfsstat_get raises
  failDbgEnable : Bool   -- an rpcdebug enable command raises
  failStatsInit : Bool   -- the nfsstat reference capture raises
  messagesExists : Bool  -- os.path.exists(self.messages)
  uidNonRoot : Bool      -- os.getuid() != 0
  newTracePid : Nat      -- pid of the spawned tcpdump process
  newTrcpPid : Nat       -- pid of the spawned trace-pipe copy process
  enabledPoints : List String -- configured points whose enable write succeeded
  tempName : String      -- tempfile.mkstemp name for the stats reference
  errText : String       -- text of the exception a failing command raises
  firstLine : String     -- first line read from the capture process output
  exitedAfterSleep : Bool -- self.process.poll() is not None after sleep(1)
deriving Repr, DecidableEq

/-- A stage outcome: the updated state and the events produced, wrapped in
`Except` (`.error` when the Python stage raises, still carrying the state
mutated so far and the events already produced). -/
abbrev StageResult := Except (SState × List SEv) (SState × List SEv)

/-- Sequencing of stages inside one `try`: an earlier exception skips the
later stage; events accumulate either way. -/
def seqStage (r : StageResult) (f : SState → StageResult) : StageResult :=
  match r with
  | .error e => .error e
  | .ok (st, evs) =>
    match f st with
    | .ok (st2, evs2) => .ok (st2, evs ++ evs2)
    | .error (st2, evs2) => .error (st2, evs ++ evs2)

/-- The net registry effect of `stop_cmd` on one tracked process
(lines 494-501): it is waited on, removed from `process_list`, and its
`process_smap` entry popped. -/
def dropProc (st : SState) (p : Nat) : SState :=
  { st with plist := st.plist.erase p, smap := st.smap.erase p }

/-- The registry effect of `run_cmd(..., wait=False)` (lines 417-421), on
the session state. -/
def registerNoWait (st : SState) (p : Nat) (sudoNonRoot : Bool) : SState :=
  { st with plist := st.plist ++ [p],
            smap := if sudoNonRoot then st.smap ++ [p] else st.smap }

/-- Stage 1 of `trace_stop` (lines 795-799): if a capture process is
recorded, sleep `trcdelay`, terminate it through `stop_cmd`, and clear
`traceproc`.  `failStop` models an exception raised inside `stop_cmd`
(e.g. the `ps -ef` run of `get_pids` failing) before the registry entry is
removed. -/
def stopCaptureStage (env : SEnv) (st : SState) : StageResult :=
  match st.traceproc with
  | none => .ok (st, [SEv.stopCapture])
  | some p =>
    if env.failStop then .error (st, [SEv.stopCapture])
    else .ok ({ dropProc st p with traceproc := none },
              [SEv.stopCapture, SEv.removeProc p])

/-- Stage 2 of `trace_stop` (lines 800-801): `nfs_debug_reset` when kernel
debug was enabled and tracing is active.  Its file work does not touch the
modelled state; `failDbg` models it raising (e.g. the chmod/read of the
log file failing). -/
def dbgResetStage (env : SEnv) (st : SState) : StageResult :=
  if (¬ st.notrace ∧ st.nfsdebugOn) then
    if env.failDbg then .error (st, [SEv.dbgReset]) else .ok (st, [SEv.dbgReset])
  else .ok (st, [SEv.dbgReset])

/-- Stage 3 of `trace_stop` (line 802): `trace_points_reset`
(lines 918-931) writes the disable flag of every enabled trace point and
terminates the trace-pipe copy process. -/
def trcpResetStage (env : SEnv) (st : SState) : StageResult :=
  if env.failTrcp then .error (st, [SEv.trcpReset])
  else
    let st := { st with
      tracestate := st.tracestate.map (fun e : String × Nat => (e.1, 0)) }
    match st.trcpointproc with
    | none => .ok (st, [SEv.trcpReset])
    | some p => .ok ({ dropProc st p with trcpointproc := none },
                     [SEv.trcpReset, SEv.removeProc p])

/-- Stage 4 of `trace_stop` (line 803): `nfsstat_get` (lines 944-964)
captures relative stats; whether or not its command raises, the `finally`
clause removes the reference file and clears `nfsstattemp`. -/
def statsGetStage (env : SEnv) (st : SState) : StageResult :=
  if (¬ st.nfsstats ∨ st.nfsstattemp.length = 0) then .ok (st, [SEv.statsGet])
  else if env.failStats then .error ({ st with nfsstattemp := "" }, [SEv.statsGet])
  else .ok ({ st with nfsstattemp := "" }, [SEv.statsGet])

/-- The body of `Host.trace_stop` (lines 795-803): the four stop stages in
order; an exception in any one aborts the ones after it, because all four
live inside the single `try` of line 794. -/
def trace_stop_body (env : SEnv) (st : SState) : StageResult :=
  seqStage (seqStage (seqStage (stopCaptureStage env st)
    (dbgResetStage env)) (trcpResetStage env)) (statsGetStage env)

/-- `Host.trace_stop` (lines 792-805): the stage sequence wrapped in
`try: ... except: return` — an exception from any stage is swallowed and
the method returns normally. -/
def trace_stop (env : SEnv) (st : SState) : SState × List SEv :=
  match trace_stop_body env st with
  | .ok r => r
  | .error r => r

/-- A sample session state: a capture process with pid 7 is active (and
registered, with sudo), nothing else configured. -/
def sSt0 : SState :=
  { plist := [7], smap := [7], traceproc := some 7, trcpointproc := none,
    notrace := false, nfsdebugOn := false, tracestate := [], tracepoints := [],
    tracefile := "/tmp/tracefile_001.cap", traceidx := 2, tracefiles := [],
    tmpdir := "/tmp", tracename := "tracefile", nfsdebug := "", rpcdebug := "",
    nfsstats := false, nfsstattemp := "" }

/-- A sample stop oracle in which terminating the capture process raises. -/
def sEnvFail : SEnv :=
  { failStop := true, failDbg := false, failTrcp := false, failStats := false,
    failDbgEnable := false, failStatsInit := false, messagesExists := true,
    uidNonRoot := true, newTracePid := 9, newTrcpPid := 10, enabledPoints := [],
    tempName := "/tmp/nfsstat_ref", errText := "err",
    firstLine := "listening on eth0", exitedAfterSleep := false }

/-- A sample stop oracle in which no stage raises. -/
def sEnvOk : SEnv :=
  { sEnvFail with failStop := false }

/-- Claim C2, counterexample to the claim as stated: with an active capture
process whose termination raises, `trace_stop` runs only stage 1 — the
trace-point disabling and statistics stages are never attempted, because
one `try` wraps the whole sequence (lines 794-805). -/
theorem trace_stop_abort_cex :
    sSt0.traceproc = some 7 ∧
    (trace_stop sEnvFail sSt0).2 = [SEv.stopCapture] ∧
    SEv.trcpReset ∉ (trace_stop sEnvFail sSt0).2 ∧
    SEv.statsGet ∉ (trace_stop sEnvFail sSt0).2 := by decide

/-- Claim C2 (amended): `trace_stop` never propagates an exception — the
one `try/except` turns any stage failure into a plain return — and when no
stage fails all four stages run; but when a stage raises, the remaining
stages are skipped, not attempted (shown for a failing first stage: the
event trace ends at stage 1). -/
theorem trace_stop_amended (env : SEnv) (st : SState) :
    (∀ r, trace_stop_body env st = .error r → trace_stop env st = r) ∧
    (env.failStop = false → env.failDbg = false → env.failTrcp = false →
     env.failStats = false →
       SEv.stopCapture ∈ (trace_stop env st).2 ∧
       SEv.dbgReset ∈ (trace_stop env st).2 ∧
       SEv.trcpReset ∈ (trace_stop env st).2 ∧
       SEv.statsGet ∈ (trace_stop env st).2) ∧
    (env.failStop = true → st.traceproc ≠ none →
       (trace_stop env st).2 = [SEv.stopCapture]) := by
  refine ⟨?_, ?_, ?_⟩
  · intro r hr
    simp [trace_stop, hr]
  · intro h1 h2 h3 h4
    rcases hA : st.traceproc with _ | p <;>
    rcases hB : st.trcpointproc with _ | q <;>
      simp [trace_stop, trace_stop_body, seqStage, stopCaptureStage,
        dbgResetStage, trcpResetStage, statsGetStage, dropProc, hA, hB,
        h1, h2, h3, h4] <;>
      split_ifs <;> simp_all
  · intro h1 h2
    rcases hA : st.traceproc with _ | p
    · exact absurd hA h2
    · simp [trace_stop, trace_stop_body, seqStage, stopCaptureStage, hA, h1]

/-- Claim C2, witness for the amended claim: with the no-failure oracle on
the sample state, all four stop stages run. -/
theorem trace_stop_amended_witness :
    SEv.stopCapture ∈ (trace_stop sEnvOk sSt0).2 ∧
    SEv.statsGet ∈ (trace_stop sEnvOk sSt0).2 :=
  ⟨((trace_stop_amended sEnvOk sSt0).2.1 rfl rfl rfl rfl).1,
   ((trace_stop_amended sEnvOk sSt0).2.1 rfl rfl rfl rfl).2.2.2⟩

/-- `"%03d" % n`: decimal digits zero-padded to width 3. -/
def pad3 (n : Nat) : String :=
  let s := toString n
  if s.length < 3 then String.mk (List.replicate (3 - s.length) '0') ++ s else s

/-- The auto-numbered trace file name of lines 751-752:
`"%s/%s_%03d.cap" % (self.tmpdir, self.tracename, self.traceidx)`. -/
def autoTraceName (st : SState) : String :=
  st.tmpdir ++ "/" ++ st.tracename ++ "_" ++ pad3 st.traceidx ++ ".cap"

/-- `re.search('listening on', out)` of line 786, as a substring test. -/
def reportsListening (s : String) : Bool :=
  decide ("listening on".toList <:+: s.toList)

/-- `nfs_debug_enable` (lines 829-863) as called from `trace_start`
(lines 754-755): with a debug flag configured and the system log present,
`self._nfsdebug` is switched on and one rpcdebug command per module runs —
any of which may raise, after the flag is already set. -/
def nfsDebugEnableStage (env : SEnv) (st : SState) : StageResult :=
  if st.nfsdebug.length > 0 ∨ st.rpcdebug.length > 0 then
    if env.messagesExists then
      if env.failDbgEnable then
        .error ({ st with nfsdebugOn := true }, [SEv.dbgEnable])
      else .ok ({ st with nfsdebugOn := true }, [SEv.dbgEnable])
    else .ok (st, [SEv.dbgEnable])
  else .ok (st, [SEv.dbgEnable])

/-- `trace_points_enable` (lines 895-916): write the enable flag of each
configured point (individual failures swallowed, lines 910-911) and record
the enabled ones; if at least one succeeded, spawn the non-blocking
trace-pipe copy process, registering it like every `run_cmd(wait=False)`.
Never raises.  `env.enabledPoints` is the sublist of configured points
whose control-file write succeeded. -/
def tracePointsEnableStage (env : SEnv) (st : SState) : SState × List SEv :=
  if st.tracepoints.isEmpty then (st, [SEv.trcpEnable])
  else
    let st := { st with
      tracestate := st.tracestate ++ env.enabledPoints.map (fun n => (n, 1)) }
    if env.enabledPoints.isEmpty then (st, [SEv.trcpEnable])
    else
      ({ registerNoWait st env.newTrcpPid env.uidNonRoot with
          trcpointproc := some env.newTrcpPid },
       [SEv.trcpEnable, SEv.launch env.newTrcpPid])

/-- `nfsstat_init` (lines 933-942): with stats requested, create the
reference temp file and capture current stats with a blocking command that
may raise. -/
def nfsstatInitStage (env : SEnv) (st : SState) : StageResult :=
  if st.nfsstats then
    let st := { st with nfsstattemp := env.tempName }
    if env.failStatsInit then .error (st, [SEv.statsInit])
    else .ok (st, [SEv.statsInit])
  else .ok (st, [SEv.statsInit])

/-- Lines 753-790 of `trace_start`, from the state with the trace file
name already chosen: unless `notrace`, run the start stages, spawn the
capture process non-blocking with sudo (lines 776-778), and confirm its
startup (lines 781-789): read the first line of its output; if it does not
report "listening on", sleep one second and, if the process has already
exited, raise with the line read as the exception text. -/
def startStages (env : SEnv) (st1 : SState) :
    Except (String × SState × List SEv) (SState × List SEv × String) :=
  if st1.notrace then .ok (st1, [], st1.tracefile)
  else
    match nfsDebugEnableStage env st1 with
    | .error (s, e) => .error (env.errText, s, e)
    | .ok (st2, evs2) =>
      let r3 := tracePointsEnableStage env st2
      match nfsstatInitStage env r3.1 with
      | .error (s, e) => .error (env.errText, s, evs2 ++ r3.2 ++ e)
      | .ok (st4, evs4) =>
        let st5 := { st4 with tracefiles := st4.tracefiles ++ [st4.tracefile] }
        let st6 := { registerNoWait st5 env.newTracePid env.uidNonRoot with
                     traceproc := some env.newTracePid }
        let evs := evs2 ++ r3.2 ++ evs4 ++ [SEv.launch env.newTracePid]
        if reportsListening env.firstLine then .ok (st6, evs, st6.tracefile)
        else if env.exitedAfterSleep then .error (env.firstLine, st6, evs)
        else .ok (st6, evs, st6.tracefile)

/-- Lines 748-752 of `trace_start`: record the explicit trace file name,
or compose an auto-numbered one and advance the sequence index. -/
def chooseTraceFile (tracefileArg : Option String) (s : SState) : SState :=
  match tracefileArg with
  | some f => { s with tracefile := f }
  | none => { s with tracefile := autoTraceName s, traceidx := s.traceidx + 1 }

/-- `Host.trace_start` (lines 731-790): first the full stop sequence
(line 747), then the trace file naming (lines 748-752), then the start
stages.  Returns `.ok` with the final state, the events, and the returned
trace file name, or `.error` carrying the raised exception's text. -/
def trace_start (env : SEnv) (st : SState) (tracefileArg : Option String) :
    Except (String × SState × List SEv) (SState × List SEv × String) :=
  let r0 := trace_stop env st
  match startStages env (chooseTraceFile tracefileArg r0.1) with
  | .ok (s, e, f) => .ok (s, r0.2 ++ e, f)
  | .error (t, s, e) => .error (t, s, r0.2 ++ e)

theorem nfsDebugEnableStage_ok (env : SEnv) (s : SState)
    (hd : env.failDbgEnable = false) :
    ∃ s2, nfsDebugEnableStage env s = .ok (s2, [SEv.dbgEnable]) ∧
      s2.plist = s.plist ∧ s2.notrace = s.notrace := by
  unfold nfsDebugEnableStage
  split_ifs with h1 h2 <;> first
    | exact ⟨_, rfl, rfl, rfl⟩
    | (rw [hd] at *; simp_all)

theorem tracePointsEnableStage_plist (env : SEnv) (s : SState) (x : Nat)
    (hx : x ∉ s.plist) (hq : x ≠ env.newTrcpPid) :
    x ∉ (tracePointsEnableStage env s).1.plist := by
  unfold tracePointsEnableStage registerNoWait
  split_ifs <;> simp_all

theorem nfsstatInitStage_ok (env : SEnv) (s : SState)
    (hs : env.failStatsInit = false) :
    ∃ s2, nfsstatInitStage env s = .ok (s2, [SEv.statsInit]) ∧
      s2.plist = s.plist := by
  unfold nfsstatInitStage
  split_ifs with h1 <;> first
    | exact ⟨_, rfl, rfl⟩
    | (rw [hs] at *; simp_all)

/-- Shape of the start stages when the configured stage commands succeed:
the capture process is spawned and recorded, and the startup check decides
between returning the trace file name and raising the line read. -/
theorem startStages_shape (env : SEnv) (st1 : SState)
    (hnt : st1.notrace = false) (hd : env.failDbgEnable = false)
    (hs : env.failStatsInit = false) :
    ∃ s6 evs,
      (startStages env st1 =
        if reportsListening env.firstLine then .ok (s6, evs, s6.tracefile)
        else if env.exitedAfterSleep then .error (env.firstLine, s6, evs)
        else .ok (s6, evs, s6.tracefile)) ∧
      s6.traceproc = some env.newTracePid ∧
      SEv.launch env.newTracePid ∈ evs ∧
      (∀ x, x ∉ st1.plist → x ≠ env.newTracePid → x ≠ env.newTrcpPid →
        x ∉ s6.plist) := by
  obtain ⟨s2, hdbg, hdpl, _⟩ := nfsDebugEnableStage_ok env st1 hd
  obtain ⟨s4, hstat, hspl⟩ :=
    nfsstatInitStage_ok env (tracePointsEnableStage env s2).1 hs
  unfold startStages
  rw [hnt, hdbg]
  dsimp only
  rw [hstat]
  dsimp only
  refine ⟨_, _, rfl, rfl, by simp, ?_⟩
  intro x hx1 hx2 hx3
  simp only [registerNoWait, List.mem_append]
  rw [hspl]
  have := tracePointsEnableStage_plist env s2 x (hdpl ▸ hx1) hx3
  simp_all

/-- The state a stage result carries, whether or not the stage raised. -/
def sOut (r : StageResult) : SState :=
  match r with | .ok (s, _) => s | .error (s, _) => s

/-- The events a stage result carries. -/
def sEvs (r : StageResult) : List SEv :=
  match r with | .ok (_, e) => e | .error (_, e) => e

theorem trace_stop_eq_body (env : SEnv) (st : SState) :
    trace_stop env st =
      (sOut (trace_stop_body env st), sEvs (trace_stop_body env st)) := by
  cases h : trace_stop_body env st with
  | ok r => rcases r with ⟨s, e⟩; simp [trace_stop, sOut, sEvs, h]
  | error r => rcases r with ⟨s, e⟩; simp [trace_stop, sOut, sEvs, h]

theorem sOut_seqStage (P : SState → Prop) (r : StageResult)
    (f : SState → StageResult) (hf : ∀ s, P s → P (sOut (f s)))
    (hr : P (sOut r)) : P (sOut (seqStage r f)) := by
  cases r with
  | error e => exact hr
  | ok a =>
    rcases a with ⟨s, evs⟩
    have h2 := hf s hr
    cases hfs : f s with
    | ok b =>
      rcases b with ⟨s2, e2⟩
      rw [hfs] at h2
      simpa [seqStage, hfs, sOut] using h2
    | error b =>
      rcases b with ⟨s2, e2⟩
      rw [hfs] at h2
      simpa [seqStage, hfs, sOut] using h2

theorem sEvs_seqStage_sub (r : StageResult) (f : SState → StageResult)
    (ev : SEv) (h : ev ∈ sEvs (seqStage r f)) :
    ev ∈ sEvs r ∨ ∃ s, ev ∈ sEvs (f s) := by
  cases r with
  | error e => exact Or.inl h
  | ok a =>
    rcases a with ⟨s, evs⟩
    cases hfs : f s with
    | ok b =>
      rcases b with ⟨s2, e2⟩
      simp only [seqStage, hfs, sEvs, List.mem_append] at h
      rcases h with h | h
      · exact Or.inl h
      · exact Or.inr ⟨s, by simp [hfs, sEvs, h]⟩
    | error b =>
      rcases b with ⟨s2, e2⟩
      simp only [seqStage, hfs, sEvs, List.mem_append] at h
      rcases h with h | h
      · exact Or.inl h
      · exact Or.inr ⟨s, by simp [hfs, sEvs, h]⟩

theorem sEvs_seqStage_mem (r : StageResult) (f : SState → StageResult)
    (ev : SEv) (h : ev ∈ sEvs r) : ev ∈ sEvs (seqStage r f) := by
  cases r with
  | error e => exact h
  | ok a =>
    rcases a with ⟨s, evs⟩
    cases hfs : f s with
    | ok b =>
      rcases b with ⟨s2, e2⟩
      simp only [seqStage, hfs, sEvs, List.mem_append]
      exact Or.inl h
    | error b =>
      rcases b with ⟨s2, e2⟩
      simp only [seqStage, hfs, sEvs, List.mem_append]
      exact Or.inl h

theorem stopCaptureStage_pres (env : SEnv) (s : SState) (p : Nat) :
    ((sOut (stopCaptureStage env s)).notrace = s.notrace) ∧
    (p ∉ s.plist → p ∉ (sOut (stopCaptureStage env s)).plist) ∧
    (∀ q, SEv.launch q ∉ sEvs (stopCaptureStage env s)) := by
  rcases hA : s.traceproc with _ | u
  · simp [stopCaptureStage, sOut, sEvs, dropProc, hA]
  · simp only [stopCaptureStage, hA]
    split_ifs <;> simp [sOut, sEvs, dropProc]
    exact fun h hc => h (List.mem_of_mem_erase hc)

theorem dbgResetStage_pres (env : SEnv) (s : SState) (p : Nat) :
    ((sOut (dbgResetStage env s)).notrace = s.notrace) ∧
    (p ∉ s.plist → p ∉ (sOut (dbgResetStage env s)).plist) ∧
    (∀ q, SEv.launch q ∉ sEvs (dbgResetStage env s)) := by
  unfold dbgResetStage
  split_ifs <;> simp [sOut, sEvs]

theorem trcpResetStage_pres (env : SEnv) (s : SState) (p : Nat) :
    ((sOut (trcpResetStage env s)).notrace = s.notrace) ∧
    (p ∉ s.plist → p ∉ (sOut (trcpResetStage env s)).plist) ∧
    (∀ q, SEv.launch q ∉ sEvs (trcpResetStage env s)) := by
  unfold trcpResetStage
  rcases hB : s.trcpointproc with _ | u <;>
    split_ifs <;>
    simp [sOut, sEvs, dropProc, hB]
  exact fun h hc => h (List.mem_of_mem_erase hc)

theorem statsGetStage_pres (env : SEnv) (s : SState) (p : Nat) :
    ((sOut (statsGetStage env s)).notrace = s.notrace) ∧
    (p ∉ s.plist → p ∉ (sOut (statsGetStage env s)).plist) ∧
    (∀ q, SEv.launch q ∉ sEvs (statsGetStage env s)) := by
  unfold statsGetStage
  split_ifs <;> simp [sOut, sEvs]

/-- No stop stage writes `notrace`. -/
theorem trace_stop_notrace (env : SEnv) (st : SState) :
    (trace_stop env st).1.notrace = st.notrace := by
  rw [trace_stop_eq_body]
  show (sOut (trace_stop_body env st)).notrace = st.notrace
  unfold trace_stop_body
  have h1 := (stopCaptureStage_pres env st 0).1
  refine Eq.trans ?_ h1
  generalize stopCaptureStage env st = r1
  have hstep : ∀ (r : StageResult) (f : SState → StageResult),
      (∀ s, (sOut (f s)).notrace = s.notrace) →
      (sOut (seqStage r f)).notrace = (sOut r).notrace := by
    intro r f hf
    exact sOut_seqStage (fun s => s.notrace = (sOut r).notrace) r f
      (fun s hs => (hf s).trans hs) rfl
  rw [hstep _ (statsGetStage env) (fun s => (statsGetStage_pres env s 0).1),
      hstep _ (trcpResetStage env) (fun s => (trcpResetStage_pres env s 0).1),
      hstep _ (dbgResetStage env) (fun s => (dbgResetStage_pres env s 0).1)]

/-- When stopping the active capture process succeeds, `trace_stop`
removes it from the registry, reports the removal, and launches nothing. -/
theorem trace_stop_removes (env : SEnv) (st : SState) (p : Nat)
    (hnd : st.plist.Nodup) (hp : st.traceproc = some p)
    (hf : env.failStop = false) :
    p ∉ (trace_stop env st).1.plist ∧
    SEv.removeProc p ∈ (trace_stop env st).2 ∧
    (∀ q, SEv.launch q ∉ (trace_stop env st).2) := by
  have h1 : p ∉ st.plist.erase p := fun hc => ((hnd.mem_erase_iff).mp hc).1 rfl
  have hs1 : p ∉ (sOut (stopCaptureStage env st)).plist ∧
      SEv.removeProc p ∈ sEvs (stopCaptureStage env st) := by
    simp [stopCaptureStage, hp, hf, sOut, sEvs, dropProc]
    exact h1
  rw [trace_stop_eq_body]
  refine ⟨?_, ?_, ?_⟩
  · show p ∉ (sOut (trace_stop_body env st)).plist
    unfold trace_stop_body
    refine sOut_seqStage (fun s => p ∉ s.plist) _ _
      (fun s hs => (statsGetStage_pres env s p).2.1 hs) ?_
    refine sOut_seqStage (fun s => p ∉ s.plist) _ _
      (fun s hs => (trcpResetStage_pres env s p).2.1 hs) ?_
    refine sOut_seqStage (fun s => p ∉ s.plist) _ _
      (fun s hs => (dbgResetStage_pres env s p).2.1 hs) hs1.1
  · show SEv.removeProc p ∈ sEvs (trace_stop_body env st)
    unfold trace_stop_body
    exact sEvs_seqStage_mem _ _ _ (sEvs_seqStage_mem _ _ _
      (sEvs_seqStage_mem _ _ _ hs1.2))
  · intro q
    show SEv.launch q ∉ sEvs (trace_stop_body env st)
    unfold trace_stop_body
    intro hc
    rcases sEvs_seqStage_sub _ _ _ hc with hc | ⟨s4, hc⟩
    · rcases sEvs_seqStage_sub _ _ _ hc with hc | ⟨s3, hc⟩
      · rcases sEvs_seqStage_sub _ _ _ hc with hc | ⟨s2, hc⟩
        · exact (stopCaptureStage_pres env st p).2.2 q hc
        · exact (dbgResetStage_pres env s2 p).2.2 q hc
      · exact (trcpResetStage_pres env s3 p).2.2 q hc
    · exact (statsGetStage_pres env s4 p).2.2 q hc

theorem chooseTraceFile_fields (targ : Option String) (s : SState) :
    (chooseTraceFile targ s).notrace = s.notrace ∧
    (chooseTraceFile targ s).plist = s.plist := by
  cases targ <;> exact ⟨rfl, rfl⟩

/-- The final state of a `trace_start` call, whether it returned or
raised. -/
def startOutState
    (r : Except (String × SState × List SEv) (SState × List SEv × String)) :
    SState :=
  match r with | .ok (s, _, _) => s | .error (_, s, _) => s

/-- Claim C7, counterexample to the claim as stated: when terminating the
previous capture process raises (the same reachable stop-stage failure as
in the claim C2 counterexample), `trace_stop` swallows the exception with
the old process still recorded and registered (host.py lines 794-799), and
`trace_start` then launches and registers a second capture process: after
the call the new capture pid 9 is recorded as `traceproc` and registered,
while the old capture pid 7 is still in the registry — the previous
capture was neither terminated nor removed before the new launch, and two
capture processes are active at once. -/
theorem trace_start_two_captures_cex :
    sSt0.traceproc = some 7 ∧
    (startOutState (trace_start sEnvFail sSt0 none)).traceproc = some 9 ∧
    9 ∈ (startOutState (trace_start sEnvFail sSt0 none)).plist ∧
    7 ∈ (startOutState (trace_start sEnvFail sSt0 none)).plist ∧
    SEv.removeProc 7 ∉ (trace_stop sEnvFail sSt0).2 := by decide

/-- Claim C7 (amended): `trace_start` always runs the full stop sequence
first, and when stopping the previous capture process succeeds — the stop
sequence is best-effort and swallows a stop failure, as the claim C7
counterexample shows — starting a new capture session while one is active
fully stops the previous one: it is terminated and removed from the
registry, and all stop events precede the launch event of the new capture
process, which is then the only capture process recorded.  Hypotheses:
the stop of the old process and the configured start-stage commands
succeed, tracing is enabled, the startup line reports listening, and the
freshly spawned pids differ from the old one. -/
theorem trace_start_restarts (env : SEnv) (st : SState)
    (targ : Option String) (p : Nat)
    (hp : st.traceproc = some p) (hnd : st.plist.Nodup)
    (hfs : env.failStop = false) (hnt : st.notrace = false)
    (hd : env.failDbgEnable = false) (hs : env.failStatsInit = false)
    (hlst : reportsListening env.firstLine = true)
    (hq1 : env.newTracePid ≠ p) (hq2 : env.newTrcpPid ≠ p) :
    ∃ st2 evs2,
      trace_start env st targ =
        .ok (st2, (trace_stop env st).2 ++ evs2, st2.tracefile) ∧
      SEv.removeProc p ∈ (trace_stop env st).2 ∧
      (∀ q, SEv.launch q ∉ (trace_stop env st).2) ∧
      SEv.launch env.newTracePid ∈ evs2 ∧
      st2.traceproc = some env.newTracePid ∧
      p ∉ st2.plist := by
  obtain ⟨hpl, hrm, hnl⟩ := trace_stop_removes env st p hnd hp hfs
  have hch := chooseTraceFile_fields targ (trace_stop env st).1
  obtain ⟨s6, evs, hshape, htp, hle, hpl6⟩ :=
    startStages_shape env (chooseTraceFile targ (trace_stop env st).1)
      (by rw [hch.1, trace_stop_notrace, hnt]) hd hs
  have hts : trace_start env st targ =
      match startStages env (chooseTraceFile targ (trace_stop env st).1) with
      | .ok (s, e, f2) => .ok (s, (trace_stop env st).2 ++ e, f2)
      | .error (t2, s, e) => .error (t2, s, (trace_stop env st).2 ++ e) := rfl
  rw [hshape] at hts
  rw [hlst] at hts
  simp only [if_true] at hts
  refine ⟨s6, evs, hts, hrm, hnl, hle, htp, ?_⟩
  refine hpl6 p ?_ (Ne.symm hq1) (Ne.symm hq2)
  rw [hch.2]
  exact hpl

/-- Claim C8: after launching the capture process, `trace_start` reads the
first line of its startup output; if that line does not report listening
and, after the one-second sleep, the process has already exited, it raises
an exception carrying the read line; if the line reports listening or the
process is still running, it proceeds and returns the trace file name. -/
theorem trace_start_startup_check (env : SEnv) (st : SState)
    (targ : Option String)
    (hnt : st.notrace = false) (hd : env.failDbgEnable = false)
    (hs : env.failStatsInit = false) :
    (reportsListening env.firstLine = false → env.exitedAfterSleep = true →
       ∃ s evs, trace_start env st targ = .error (env.firstLine, s, evs)) ∧
    ((reportsListening env.firstLine = true ∨ env.exitedAfterSleep = false) →
       ∃ s evs, trace_start env st targ = .ok (s, evs, s.tracefile)) := by
  have hch := chooseTraceFile_fields targ (trace_stop env st).1
  obtain ⟨s6, evs, hshape, htp, hle, hpl6⟩ :=
    startStages_shape env (chooseTraceFile targ (trace_stop env st).1)
      (by rw [hch.1, trace_stop_notrace, hnt]) hd hs
  have hts : trace_start env st targ =
      match startStages env (chooseTraceFile targ (trace_stop env st).1) with
      | .ok (s, e, f2) => .ok (s, (trace_stop env st).2 ++ e, f2)
      | .error (t2, s, e) => .error (t2, s, (trace_stop env st).2 ++ e) := rfl
  rw [hshape] at hts
  constructor
  · intro hL hE
    rw [hL, hE] at hts
    simp only [Bool.false_eq_true, if_false, if_true] at hts
    exact ⟨s6, (trace_stop env st).2 ++ evs, hts⟩
  · intro hOr
    by_cases hL : reportsListening env.firstLine = true
    · rw [hL] at hts
      simp only [if_true] at hts
      exact ⟨s6, (trace_stop env st).2 ++ evs, hts⟩
    · have hLf : reportsListening env.firstLine = false := by
        revert hL; cases reportsListening env.firstLine <;> simp
      have hE : env.exitedAfterSleep = false := by
        rcases hOr with h | h
        · exact absurd h hL
        · exact h
      rw [hLf, hE] at hts
      simp only [Bool.false_eq_true, if_false] at hts
      exact ⟨s6, (trace_stop env st).2 ++ evs, hts⟩

/-- Claim C7 (amended), witness: on the sample state with capture pid 7 active and
the no-failure oracle (fresh pids 9 and 10, startup line reporting
listening), a new `trace_start` replaces the capture process. -/
theorem trace_start_restarts_witness :
    ∃ st2 evs2,
      trace_start sEnvOk sSt0 none =
        .ok (st2, (trace_stop sEnvOk sSt0).2 ++ evs2, st2.tracefile) ∧
      SEv.removeProc 7 ∈ (trace_stop sEnvOk sSt0).2 ∧
      (∀ q, SEv.launch q ∉ (trace_stop sEnvOk sSt0).2) ∧
      SEv.launch sEnvOk.newTracePid ∈ evs2 ∧
      st2.traceproc = some sEnvOk.newTracePid ∧
      7 ∉ st2.plist :=
  trace_start_restarts sEnvOk sSt0 none 7 rfl (by decide) rfl rfl rfl rfl
    (by decide) (by decide) (by decide)

/-- Claim C8, witness: on the sample state and oracle whose startup line
reports listening, `trace_start` returns the trace file name. -/
theorem trace_start_startup_check_witness :
    ∃ s evs, trace_start sEnvOk sSt0 none = .ok (s, evs, s.tracefile) :=
  (trace_start_startup_check sEnvOk sSt0 none rfl rfl rfl).2
    (Or.inl (by decide))

/-! ## Cleanup coordinator: `Host.cleanup` (host.py lines 267-299)

`cleanup` runs at most once per controller: the guard of lines 269-270
returns at once when `_hcleanup_done` is set, and the flag is set
(line 273) before any teardown step runs.  The teardown steps are
`trace_stop` (never raises), `network_reset` (swallows its command
failures, lines 978-988), a `mount` when staged artifacts must be removed
from an unmounted file system (it can raise, and the exception escapes
`cleanup`), the artifact removal loop (each failure swallowed), and a
final `umount` while mounted. -/

/-- Observable cleanup events. -/
inductive CEv
  | sessEv (e : SEv)
  | netReset
  | mountCalled
  | removeArtifact (f : String)
  | umountCalled
deriving Repr, DecidableEq

/-- The controller attributes `cleanup` reads and writes (the session
state is embedded; mount bookkeeping not touched by any claim —
`mtpoint`, `_checkmtpoint`, `_invalidmtpoint` — is not represented). -/
structure CState where
  sess : SState
  hcleanupDone : Bool    -- self._hcleanup_done
  nocleanup : Bool
  needNetworkReset : Bool
  mounted : Bool
  nomount : Bool
  removeList : List String -- self.remove_list
deriving Repr, DecidableEq

/-- Oracle for one cleanup call: the stop-sequence oracle plus the
outcomes of `mount` and `umount`. -/
structure CEnv where
  senv : SEnv
  mountFails : Bool  -- self.mount() raises
  umountFails : Bool -- self.umount() raises (its mount point check)
  umountOk : Bool    -- the umount retry loop succeeds within 5 tries
deriving Repr, DecidableEq

/-- The controller state after a cleanup-path call, whether or not an
exception escaped it. -/
def cleanupState (r : Except (CState × List CEv) (CState × List CEv)) :
    CState :=
  match r with | .ok (s, _) => s | .error (s, _) => s

/-- `Host.umount` (lines 704-729) as invoked from cleanup: skipped under
`nomount`; `umountFails` models its mount-point check raising; otherwise
the 5-try loop (command failures swallowed) either unmounts, clearing
`mounted`, or gives up leaving it set. -/
def umountStep (env : CEnv) (st : CState) :
    Except (CState × List CEv) (CState × List CEv) :=
  if st.nomount then .ok (st, [CEv.umountCalled])
  else if env.umountFails then .error (st, [CEv.umountCalled])
  else .ok ({ st with mounted := st.mounted && !env.umountOk },
            [CEv.umountCalled])

/-- The artifact removal loop (lines 280-296): every entry of
`remove_list` is attempted in reverse order; failures are swallowed; the
controller state is unchanged (the artifacts live on disk). -/
def cleanupRemovals (st : CState) : List CEv :=
  st.removeList.reverse.map CEv.removeArtifact

/-- Lines 280-299 of `cleanup`: the removal loop, then `umount` while
mounted. -/
def cleanupFinish (env : CEnv) (st : CState) (evs : List CEv) :
    Except (CState × List CEv) (CState × List CEv) :=
  if st.mounted then
    match umountStep env st with
    | .ok (s4, e) => .ok (s4, evs ++ cleanupRemovals st ++ e)
    | .error (s4, e) => .error (s4, evs ++ cleanupRemovals st ++ e)
  else .ok (st, evs ++ cleanupRemovals st)

/-- Lines 277-299 of `cleanup`: when staged artifacts remain on an
unmounted file system, mount first (lines 277-278; under `nomount` the
mount returns without mounting), then remove and unmount. -/
def cleanupTail (env : CEnv) (st2 : CState) (evs1 : List CEv) :
    Except (CState × List CEv) (CState × List CEv) :=
  if ¬ st2.mounted ∧ st2.removeList ≠ [] then
    if env.mountFails then .error (st2, evs1 ++ [CEv.mountCalled])
    else cleanupFinish env { st2 with mounted := !st2.nomount }
      (evs1 ++ [CEv.mountCalled])
  else cleanupFinish env st2 evs1

/-- Lines 274-299 of `cleanup`, from the state with the idempotency flag
already set: the stop sequence, the network reset if one was applied, and
the tail. -/
def cleanupAfterFlag (env : CEnv) (st1 : CState) :
    Except (CState × List CEv) (CState × List CEv) :=
  cleanupTail env { st1 with sess := (trace_stop env.senv st1.sess).1 }
    ((trace_stop env.senv st1.sess).2.map CEv.sessEv ++
     (if st1.needNetworkReset then [CEv.netReset] else []))

/-- `Host.cleanup` (lines 267-299): return at once when the idempotency
flag is set (lines 269-270); otherwise clear `remove_list` under
`nocleanup` (lines 271-272), set the flag (line 273) — both before any
teardown step — and run the teardown steps. -/
def cleanup (env : CEnv) (st : CState) :
    Except (CState × List CEv) (CState × List CEv) :=
  if st.hcleanupDone then .ok (st, [])
  else
    cleanupAfterFlag env
      { st with removeList := if st.nocleanup then [] else st.removeList,
                hcleanupDone := true }

theorem umountStep_flag (env : CEnv) (st : CState) :
    (cleanupState (umountStep env st)).hcleanupDone = st.hcleanupDone := by
  unfold umountStep cleanupState
  split_ifs <;> rfl

theorem cleanupFinish_flag (env : CEnv) (st : CState) (evs : List CEv) :
    (cleanupState (cleanupFinish env st evs)).hcleanupDone
      = st.hcleanupDone := by
  unfold cleanupFinish
  split_ifs with h1
  · cases hU : umountStep env st with
    | ok r =>
      rcases r with ⟨s4, e⟩
      have h := umountStep_flag env st
      rw [hU] at h
      simpa [cleanupState] using h
    | error r =>
      rcases r with ⟨s4, e⟩
      have h := umountStep_flag env st
      rw [hU] at h
      simpa [cleanupState] using h
  · rfl

theorem cleanupTail_flag (env : CEnv) (st2 : CState) (evs1 : List CEv) :
    (cleanupState (cleanupTail env st2 evs1)).hcleanupDone
      = st2.hcleanupDone := by
  unfold cleanupTail
  split_ifs with h1 h2
  · rfl
  · rw [cleanupFinish_flag]
  · rw [cleanupFinish_flag]

theorem cleanup_flag (env : CEnv) (st : CState) :
    (cleanupState (cleanup env st)).hcleanupDone = true := by
  by_cases h0 : st.hcleanupDone
  · simp [cleanup, h0, cleanupState]
  · unfold cleanup
    rw [if_neg h0]
    unfold cleanupAfterFlag
    rw [cleanupTail_flag]

theorem cleanup_done_noop (env : CEnv) (s : CState)
    (h : s.hcleanupDone = true) : cleanup env s = .ok (s, []) := by
  unfold cleanup
  rw [if_pos h]

/-- Claim C3: invoking cleanup twice has the same observable effect as
invoking it once.  The first call sets the idempotency flag before any
teardown step (the flag is already set in the state every teardown step
receives — see `cleanup`), every state a call can leave behind (normal
return or escaped mount/umount exception) carries the flag, and a second
call on such a state returns at once: `.ok` with the state unchanged and
no teardown event. -/
theorem cleanup_idempotent (env env2 : CEnv) (st : CState) :
    (cleanupState (cleanup env st)).hcleanupDone = true ∧
    cleanup env2 (cleanupState (cleanup env st)) =
      .ok (cleanupState (cleanup env st), []) := by
  have hdone := cleanup_flag env st
  exact ⟨hdone, cleanup_done_noop env2 _ hdone⟩

end NFSTest
